import Mathlib

/-!
Verification of the k9s `model1` header core (`internal/model1/header.go`).

The Go file defines a tabular schema model: `HeaderColumn` / `Header`
(an ordered sequence of column descriptors), name resolution (`IndexOf`),
spec-string resolution with a label-extraction grammar (`MapIndices`),
column customization (`Customize`), change detection (`Diff`, via
`reflect.DeepEqual`), and per-column role queries.

Embedding conventions:
* Go strings are modelled as `List Char`.
* The Go `DecoratorFunc` function field is modelled as an
  identity-comparable handle `Option Nat`, `none` standing for a `nil`
  Go function value.  `reflect.DeepEqual` deems two function values
  deeply equal only when both are `nil`; this is reflected in
  `colDeepEqual` below.  (DeepEqual's pointer shortcut for aliased
  slices is a memory-level detail outside a value-level model: `Diff`
  below models the comparison of two independently allocated headers.)
* `map[int]ExtractionInfo` is modelled as an association list; the keys
  `MapIndices` inserts are strictly increasing, so insertion order is a
  faithful representation, and `bagGet` models Go's zero-value map read.
* The regular expression `^(?:([^:]+):\s*)?(.*)\[(.*)\]$` (Go `regexp`,
  leftmost-first match semantics) is embedded as the explicit function
  `rgxMatch`; see its doc comment for the derivation.
* Logging calls (`log.Warn/Error/Info/Debug`) are observational only and
  are not modelled.
-/

namespace Model1

/-- Go strings, modelled as lists of characters. -/
abbrev Str := List Char

/-- `HeaderColumn` (header.go): one column's display metadata.  `Decorator`
is Go's `DecoratorFunc` field, modelled as an identity-comparable handle
(`none` = `nil`). -/
structure HeaderColumn where
  Name : Str
  Align : Int
  Decorator : Option Nat
  Wide : Bool
  MX : Bool
  Time : Bool
  Capacity : Bool
  VS : Bool
deriving DecidableEq

/-- The Go zero value `HeaderColumn{}`. -/
def zeroColumn : HeaderColumn := ⟨[], 0, none, false, false, false, false, false⟩

/-- The Go literal `HeaderColumn{Name: n}`: zero value with the name set. -/
def namedColumn (n : Str) : HeaderColumn := { zeroColumn with Name := n }

/-- `HeaderColumn.Clone` (header.go): a plain value copy. -/
def HeaderColumn.Clone (c : HeaderColumn) : HeaderColumn := c

/-- The Go field assignment `col.Wide = b` on a fresh copy. -/
def setWide (c : HeaderColumn) (b : Bool) : HeaderColumn := { c with Wide := b }

/-- `Header` (header.go): an ordered sequence of columns. -/
abbrev Header := List HeaderColumn

/-- The `ageCol` constant `"AGE"` (header.go). -/
def ageCol : Str := ['A', 'G', 'E']

/-- The literal `"LABELS"` compared against in `MapIndices`. -/
def labelsName : Str := ['L', 'A', 'B', 'E', 'L', 'S']

/-- The literal `"UNKNOWN"` used in the unresolved-spec scenario. -/
def unknownName : Str := ['U', 'N', 'K', 'N', 'O', 'W', 'N']

/-- `ExtractionInfo` (header.go): how to synthesize one column's value
from another field. -/
structure ExtractionInfo where
  IdxInFields : Int
  CustomName : Str
  HeaderName : Str
  Key : Str
deriving DecidableEq

/-- The Go zero value `ExtractionInfo{}` — what reading a
`map[int]ExtractionInfo` at an absent key yields. -/
def zeroInfo : ExtractionInfo := ⟨0, [], [], []⟩

/-- `ExtractionInfoBag` (header.go): `map[int]ExtractionInfo`, modelled as
an association list in insertion order (inserted keys are strictly
increasing, hence distinct). -/
abbrev ExtractionInfoBag := List (Nat × ExtractionInfo)

/-- Go map read `eib[i]`: the stored value, or the zero value when the key
is absent. -/
def bagGet (eib : ExtractionInfoBag) (i : Nat) : ExtractionInfo :=
  match eib.find? (fun p => decide (p.1 = i)) with
  | some p => p.2
  | none => zeroInfo

/-- Go map read `eib[i]` keeping track of key presence. -/
def bagFind? (eib : ExtractionInfoBag) (i : Nat) : Option ExtractionInfo :=
  (eib.find? (fun p => decide (p.1 = i))).map Prod.snd

/-- The index search of `Header.IndexOf` (header.go): first column whose
name matches, skipping `Wide` columns when `includeWide` is false; `none`
when no column matches. -/
def idxOf? : Header → Str → Bool → Option Nat
  | [], _, _ => none
  | c :: t, name, includeWide =>
    if c.Wide && !includeWide then (idxOf? t name includeWide).map (· + 1)
    else if c.Name = name then some 0
    else (idxOf? t name includeWide).map (· + 1)

/-- `Header.IndexOf` (header.go): `(index, true)` for the first matching
column, `(-1, false)` when absent. -/
def IndexOf (h : Header) (name : Str) (includeWide : Bool) : Int × Bool :=
  match idxOf? h name includeWide with
  | some i => ((i : Int), true)
  | none => (-1, false)

/-- Go regexp character class `\s` = `[\t\n\f\r ]` (RE2 Perl class). -/
def regexSpace (c : Char) : Bool :=
  c == ' ' || c == '\t' || c == '\n' || c == '\x0c' || c == '\r'

/-- Characters trimmed by Go `strings.TrimSpace` (the ASCII part of
`unicode.IsSpace`: space, `\t`, `\n`, `\v`, `\f`, `\r`; the spec strings
in play are ASCII). -/
def trimSpaceChar (c : Char) : Bool :=
  c == ' ' || c == '\t' || c == '\n' || c == '\x0b' || c == '\x0c' || c == '\r'

/-- Go `strings.TrimSpace`: drop leading and trailing whitespace. -/
def goTrimSpace (s : Str) : Str :=
  ((s.dropWhile trimSpaceChar).reverse.dropWhile trimSpaceChar).reverse

/-- Index of the last occurrence of `c` in `s`, if any. -/
def lastIdxOf (s : Str) (c : Char) : Option Nat :=
  match s.reverse.findIdx? (· == c) with
  | some j => some (s.length - 1 - j)
  | none => none

/-- Matcher for the anchored tail `(.*)\[(.*)\]$` of the Go regex, with
leftmost-first (greedy) capture semantics.  `.` does not match `\n` in Go
regexp, and every character of the matched region lies in one of
`(.*)`, `\[`, `(.*)`, `\]`, so a match requires the region newline-free;
the greedy first group captures up to the *last* `[`, and the second
group captures the text between that `[` and the final `]`. -/
def bracketSplit (s : Str) : Option (Str × Str) :=
  if s.getLast? == some ']' && !(s.contains '\n') then
    match lastIdxOf s.dropLast '[' with
    | some i => some (s.dropLast.take i, s.dropLast.drop (i + 1))
    | none => none
  else none

/-- Matcher for the Go regexp `^(?:([^:]+):\s*)?(.*)\[(.*)\]$` used by
`MapIndices`, returning the three captures (an absent group 1 is the
empty string, as with `FindStringSubmatch`).  Derivation of the
semantics under Go's leftmost-first matching:
* `([^:]+)` starts at the beginning and cannot contain `:`, so when the
  optional group participates it captures exactly the (non-empty) text
  before the first `:`; the engine tries this alternative first.
* `\s*` greedily eats whitespace after the colon; since whitespace
  characters are never `[`, a smaller `\s*` can succeed only when the
  maximal one does, so taking the maximum is exact.
* The rest is `bracketSplit` above.  If the with-group alternative
  fails, the group is skipped and the whole string must match
  `(.*)\[(.*)\]$`. -/
def rgxMatch (s : Str) : Option (Str × Str × Str) :=
  let pre := s.takeWhile (fun c => c != ':')
  let withName :=
    if pre.length != 0 && pre.length != s.length then
      match bracketSplit ((s.drop (pre.length + 1)).dropWhile regexSpace) with
      | some (g2, g3) => some (pre, g2, g3)
      | none => none
    else none
  match withName with
  | some r => some r
  | none =>
    match bracketSplit s with
    | some (g2, g3) => some (([] : Str), g2, g3)
    | none => none

/-- Loop body of `Header.MapIndices` (header.go) for one spec string.
The `len(matches) < 4` guard in the source is unreachable for this
anchored three-group pattern (`FindStringSubmatch` returns four entries
whenever `MatchString` holds) and is therefore not modelled; the
logging calls are observational only. -/
def mapStep (h : Header) (acc : List Int × ExtractionInfoBag) (col : Str) :
    List Int × ExtractionInfoBag :=
  let idx := (IndexOf h col true).1
  let ii := acc.1 ++ [idx]
  match rgxMatch col with
  | none => (ii, acc.2)
  | some (m1, m2, m3) =>
    let customName := goTrimSpace m1
    let headerName := m2
    let key := m3
    if headerName = labelsName then
      (ii, acc.2 ++ [(ii.length - 1,
        ⟨(IndexOf h headerName true).1, customName, headerName, key⟩)])
    else (ii, acc.2)

/-- `Header.MapIndices` (header.go): per spec, the resolved column index
(or `-1`), plus the extraction bag for recognized `LABELS[...]` specs.
The `wide` parameter is accepted but never consulted, exactly as in the
source. -/
def MapIndices (h : Header) (cols : List Str) (wide : Bool) :
    List Int × ExtractionInfoBag :=
  cols.foldl (mapStep h) ([], [])

/-- Loop body of `Header.Customize` (header.go) for one `(position, spec)`
pair: a resolved spec appends the cloned column with `Wide` forced false
and records the consumed index; an unresolved spec appends a fresh
column named by the bag's custom name (zero value when absent).  The
`h.getD idx zeroColumn` read is always in range, since `idxOf?` only
returns valid indices. -/
def customizeStep (h : Header) (eib : ExtractionInfoBag)
    (acc : Header × List Nat) (p : Nat × Str) : Header × List Nat :=
  match idxOf? h p.2 true with
  | none => (acc.1 ++ [namedColumn (bagGet eib p.1).CustomName], acc.2)
  | some idx =>
    (acc.1 ++ [setWide (h.getD idx zeroColumn).Clone false], acc.2 ++ [idx])

/-- `Header.Customize` (header.go): empty spec list is the identity;
otherwise build one column per spec, and when `wide` is true append the
unconsumed original columns, cloned with `Wide` forced true, in original
order. -/
def Customize (h : Header) (cols : List Str) (wide : Bool) : Header :=
  if cols.length = 0 then h
  else
    let eib := (MapIndices h cols wide).2
    let r := cols.enum.foldl (customizeStep h eib) ([], [])
    if !wide then r.1
    else
      r.1 ++ h.enum.filterMap (fun p =>
        if p.1 ∈ r.2 then none else some (setWide p.2.Clone true))

/-- `reflect.DeepEqual` on two `HeaderColumn` values: every field is
compared structurally except the `Decorator` function field, which is
deeply equal only when both sides are `nil`. -/
def colDeepEqual (a b : HeaderColumn) : Bool :=
  decide (a.Name = b.Name) && decide (a.Align = b.Align) &&
  a.Decorator.isNone && b.Decorator.isNone &&
  (a.Wide == b.Wide) && (a.MX == b.MX) && (a.Time == b.Time) &&
  (a.Capacity == b.Capacity) && (a.VS == b.VS)

/-- `reflect.DeepEqual` on two headers of any lengths: equal length and
pointwise deep equality of columns. -/
def headerDeepEqual : Header → Header → Bool
  | [], [] => true
  | a :: ta, b :: tb => colDeepEqual a b && headerDeepEqual ta tb
  | _, _ => false

/-- `Header.Diff` (header.go): `true` when lengths differ, otherwise the
negation of `reflect.DeepEqual` on the two headers. -/
def Diff (h other : Header) : Bool :=
  if h.length ≠ other.length then true
  else !(headerDeepEqual h other)

/-- `Header.HasAge` (header.go). -/
def HasAge (h : Header) : Bool :=
  (IndexOf h ageCol true).2

/-- `Header.IsMetricsCol` (header.go): bounds-checked flag read. -/
def IsMetricsCol (h : Header) (col : Int) : Bool :=
  if col < 0 ∨ (h.length : Int) ≤ col then false
  else (h.getD col.toNat zeroColumn).MX

/-- `Header.IsTimeCol` (header.go): bounds-checked flag read. -/
def IsTimeCol (h : Header) (col : Int) : Bool :=
  if col < 0 ∨ (h.length : Int) ≤ col then false
  else (h.getD col.toNat zeroColumn).Time

/-- `Header.IsCapacityCol` (header.go): bounds-checked flag read. -/
def IsCapacityCol (h : Header) (col : Int) : Bool :=
  if col < 0 ∨ (h.length : Int) ≤ col then false
  else (h.getD col.toNat zeroColumn).Capacity

/-- Spec side (§4.3): the extraction entry prescribed for a single spec
string — present exactly when the spec matches the grammar with header
name `"LABELS"`, and then carrying `IndexOf("LABELS", includeWide=true)`,
the trimmed custom name, the header name and the bracketed key. -/
def specBagEntry (h : Header) (col : Str) : Option ExtractionInfo :=
  match rgxMatch col with
  | some (m1, m2, m3) =>
    if m2 = labelsName then
      some ⟨(IndexOf h labelsName true).1, goTrimSpace m1, m2, m3⟩
    else none
  | none => none

/-- Closed form of the bag built by `MapIndices`, with keys starting at
`k`. -/
def bagOfFrom (h : Header) (k : Nat) : List Str → ExtractionInfoBag
  | [] => []
  | c :: t =>
    (match specBagEntry h c with
     | some e => [(k, e)]
     | none => []) ++ bagOfFrom h (k + 1) t

/-- Closed form of one requested column of `Customize` in terms of the
per-spec bag (code side, before relating the bag to `specBagEntry`). -/
def resultCol (h : Header) (eib : ExtractionInfoBag) (p : Nat × Str) : HeaderColumn :=
  match idxOf? h p.2 true with
  | some idx => setWide (h.getD idx zeroColumn).Clone false
  | none => namedColumn (bagGet eib p.1).CustomName

/-- Spec side (§4.4, step 2): the column `Customize` must produce at one
request position — the resolved column cloned with `Wide` forced false,
or else a fresh all-default column named by the custom name the grammar
captured for this spec (empty when it captured none). -/
def specResultCol (h : Header) (p : Nat × Str) : HeaderColumn :=
  match idxOf? h p.2 true with
  | some idx => setWide (h.getD idx zeroColumn).Clone false
  | none => namedColumn (((specBagEntry h p.2).map ExtractionInfo.CustomName).getD [])

/-- Spec side (§4.4, step 4): the wide suffix — every original column no
spec resolved to, cloned with `Wide` forced true, in original order. -/
def wideLeftovers (h : Header) (cols : List Str) : Header :=
  h.enum.filterMap (fun p =>
    if ∃ c ∈ cols, idxOf? h c true = some p.1 then none
    else some (setWide p.2.Clone true))

/-- Spec side (§8): the number of original column indices that no spec of
`cols` resolves to. -/
def unmatchedCount (h : Header) (cols : List Str) : Nat :=
  ((List.range h.length).filter
    (fun i => !(decide (∃ c ∈ cols, idxOf? h c true = some i)))).length

/-- Fixture: one column named `A`. -/
def wHeaderA : Header := [namedColumn ['A']]

/-- Fixture: the spec list `["A", "B"]`. -/
def wColsAB : List Str := [['A'], ['B']]

/-- Fixture: columns named `A` and `B`. -/
def wHeaderAB : Header := [namedColumn ['A'], namedColumn ['B']]

/-- Fixture: the spec list `["B"]`. -/
def wColsB : List Str := [['B']]

/-- Fixture: an `AGE` column flagged as metrics. -/
def wAgeMetric : HeaderColumn := { zeroColumn with Name := ageCol, MX := true }

/-- Fixture: header with just the metrics `AGE` column. -/
def wHeaderAge : Header := [wAgeMetric]

/-- Fixture: one column named `NAME`. -/
def wHeaderName : Header := [namedColumn ['N', 'A', 'M', 'E']]

/-- Fixture: a column carrying a non-nil Decorator handle. -/
def decoratedColumn : HeaderColumn := { zeroColumn with Name := ['A'], Decorator := some 0 }

lemma idxOf?_lt_length (n : Str) (w : Bool) :
    ∀ (h : Header) (i : Nat), idxOf? h n w = some i → i < h.length := by
  intro h
  induction h with
  | nil => intro i hx; simp [idxOf?] at hx
  | cons c t ih =>
    intro i hx
    simp only [idxOf?] at hx
    split at hx
    · rcases Option.map_eq_some'.mp hx with ⟨j, hj, rfl⟩
      simpa using Nat.succ_lt_succ (ih j hj)
    · split at hx
      · cases hx; simp
      · rcases Option.map_eq_some'.mp hx with ⟨j, hj, rfl⟩
        simpa using Nat.succ_lt_succ (ih j hj)

lemma idxOf?_isSome_true_iff (n : Str) :
    ∀ (h : Header), (idxOf? h n true).isSome = true ↔ ∃ c ∈ h, c.Name = n := by
  intro h
  induction h with
  | nil => simp [idxOf?]
  | cons c t ih =>
    by_cases hn : c.Name = n
    · constructor
      · intro _
        exact ⟨c, List.mem_cons_self c t, hn⟩
      · intro _
        simp [idxOf?, hn]
    · simp only [idxOf?, Bool.not_true, Bool.and_false, ite_self, if_neg hn,
        Option.isSome_map', List.mem_cons]
      rw [ih]
      constructor
      · rintro ⟨d, hd, hdn⟩
        exact ⟨d, Or.inr hd, hdn⟩
      · rintro ⟨d, hd | hd, hdn⟩
        · exact absurd (hd ▸ hdn) hn
        · exact ⟨d, hd, hdn⟩

lemma enumFrom_get? {α : Type} : ∀ (l : List α) (k i : Nat),
    (List.enumFrom k l).get? i = (l.get? i).map (fun a => (k + i, a)) := by
  intro l
  induction l with
  | nil => intro k i; simp [List.enumFrom]
  | cons a t ih =>
    intro k i
    cases i with
    | zero => simp [List.enumFrom]
    | succ j =>
      have := ih (k + 1) j
      simp only [List.enumFrom, List.get?]
      rw [this]
      have harith : k + 1 + j = k + (j + 1) := by omega
      rw [harith]

lemma bagGet_eq_bagFind? (eib : ExtractionInfoBag) (i : Nat) :
    bagGet eib i = (bagFind? eib i).getD zeroInfo := by
  unfold bagGet bagFind?
  cases eib.find? (fun p => decide (p.1 = i)) <;> rfl

lemma mapIndices_foldl (h : Header) : ∀ (l : List Str) (ii : List Int) (eib : ExtractionInfoBag),
    l.foldl (mapStep h) (ii, eib) =
      (ii ++ l.map (fun c => (IndexOf h c true).1), eib ++ bagOfFrom h ii.length l) := by
  intro l
  induction l with
  | nil => intro ii eib; simp [bagOfFrom]
  | cons c t ih =>
    intro ii eib
    rw [List.foldl_cons]
    have hstep : mapStep h (ii, eib) c =
        (ii ++ [(IndexOf h c true).1],
         eib ++ (match specBagEntry h c with
                 | some e => [(ii.length, e)]
                 | none => [])) := by
      unfold mapStep specBagEntry
      cases hm : rgxMatch c with
      | none => simp [hm]
      | some m =>
        obtain ⟨m1, m2, m3⟩ := m
        by_cases hl : m2 = labelsName
        · subst hl
          simp [hm]
        · simp [hm, hl]
    rw [hstep, ih]
    cases he : specBagEntry h c with
    | none => simp [bagOfFrom, he, List.append_assoc]
    | some e => simp [bagOfFrom, he, List.append_assoc]

lemma mapIndices_eq (h : Header) (cols : List Str) (wide : Bool) :
    MapIndices h cols wide =
      (cols.map (fun c => (IndexOf h c true).1), bagOfFrom h 0 cols) := by
  unfold MapIndices
  simpa using mapIndices_foldl h cols [] []

lemma bagOfFrom_keys_ge (h : Header) : ∀ (l : List Str) (k : Nat) (p : Nat × ExtractionInfo),
    p ∈ bagOfFrom h k l → k ≤ p.1 := by
  intro l
  induction l with
  | nil => intro k p hp; simp [bagOfFrom] at hp
  | cons c t ih =>
    intro k p hp
    simp only [bagOfFrom, List.mem_append] at hp
    rcases hp with hp | hp
    · cases he : specBagEntry h c with
      | none => rw [he] at hp; simp at hp
      | some e =>
        rw [he] at hp
        simp at hp
        subst hp
        exact Nat.le_refl k
    · exact Nat.le_of_succ_le (ih (k + 1) p hp)

lemma find?_cons_false {α : Type} (p : α → Bool) (a : α) (l : List α) (ha : p a = false) :
    (a :: l).find? p = l.find? p := by
  simp [List.find?, ha]

lemma bagFind?_bagOfFrom (h : Header) : ∀ (l : List Str) (k j : Nat),
    bagFind? (bagOfFrom h k l) (k + j) = (l.get? j).bind (specBagEntry h) := by
  intro l
  induction l with
  | nil => intro k j; simp [bagOfFrom, bagFind?]
  | cons c t ih =>
    intro k j
    have htail : ∀ jj, bagFind? (bagOfFrom h (k + 1) t) (k + 1 + jj) =
        (t.get? jj).bind (specBagEntry h) := fun jj => ih (k + 1) jj
    cases j with
    | zero =>
      cases he : specBagEntry h c with
      | some e => simp [bagOfFrom, bagFind?, he]
      | none =>
        have hnone : (bagOfFrom h (k + 1) t).find? (fun p => decide (p.1 = k)) = none := by
          rw [List.find?_eq_none]
          intro p hp hda
          have hge := bagOfFrom_keys_ge h t (k + 1) p hp
          simp only [decide_eq_true_eq] at hda
          omega
        unfold bagFind?
        simp only [bagOfFrom, he, List.nil_append, Nat.add_zero, hnone, Option.map_none']
        simp [List.get?, he]
    | succ j' =>
      have harith : k + (j' + 1) = k + 1 + j' := by omega
      cases he : specBagEntry h c with
      | some e =>
        have hpa : (fun p => decide ((p : Nat × ExtractionInfo).1 = k + (j' + 1))) ((k, e)) = false := by
          simp only [decide_eq_false_iff_not]
          show ¬ (k = k + (j' + 1))
          omega
        simp only [bagOfFrom, he, List.singleton_append]
        unfold bagFind?
        rw [find?_cons_false (fun p => decide (p.1 = k + (j' + 1))) (k, e)
          (bagOfFrom h (k + 1) t) hpa]
        have hih := htail j'
        unfold bagFind? at hih
        rw [harith, hih]
        simp [List.get?]
      | none =>
        simp only [bagOfFrom, he, List.nil_append]
        rw [harith, htail j']
        simp [List.get?]

lemma customize_foldl (h : Header) (eib : ExtractionInfoBag) :
    ∀ (l : List Str) (k : Nat) (cc : Header) (xx : List Nat),
      (List.enumFrom k l).foldl (customizeStep h eib) (cc, xx) =
        (cc ++ (List.enumFrom k l).map (resultCol h eib),
         xx ++ l.filterMap (fun c => idxOf? h c true)) := by
  intro l
  induction l with
  | nil => intro k cc xx; simp [List.enumFrom]
  | cons c t ih =>
    intro k cc xx
    rw [show List.enumFrom k (c :: t) = (k, c) :: List.enumFrom (k + 1) t from rfl]
    rw [List.foldl_cons, List.map_cons]
    have hstep : customizeStep h eib (cc, xx) (k, c) =
        (cc ++ [resultCol h eib (k, c)],
         xx ++ (match idxOf? h c true with
                | some idx => [idx]
                | none => [])) := by
      unfold customizeStep resultCol
      cases hx : idxOf? h c true with
      | none => simp [hx]
      | some idx => simp [hx]
    rw [hstep, ih]
    cases hx : idxOf? h c true with
    | none => simp [hx, List.filterMap_cons, List.append_assoc]
    | some idx => simp [hx, List.filterMap_cons, List.append_assoc]

lemma filterMap_ext {α β : Type} (l : List α) (f g : α → Option β)
    (hfg : ∀ a ∈ l, f a = g a) : l.filterMap f = l.filterMap g := by
  induction l with
  | nil => rfl
  | cons a t ih =>
    simp only [List.filterMap_cons]
    rw [hfg a (List.mem_cons_self a t),
      ih (fun b hb => hfg b (List.mem_cons_of_mem a hb))]

lemma filterMap_if_length {α β : Type} (P : α → Prop) [DecidablePred P] (g : α → β) :
    ∀ l : List α,
      (l.filterMap (fun a => if P a then none else some (g a))).length
        = (l.filter (fun a => !(decide (P a)))).length := by
  intro l
  induction l with
  | nil => rfl
  | cons a t ih =>
    by_cases hP : P a
    · simp [List.filterMap_cons, List.filter_cons, hP, ih]
    · simp [List.filterMap_cons, List.filter_cons, hP, ih]

lemma enumFrom_length {α : Type} : ∀ (l : List α) (k : Nat),
    (List.enumFrom k l).length = l.length := by
  intro l
  induction l with
  | nil => intro k; rfl
  | cons a t ih => intro k; simp [List.enumFrom, ih]

lemma customize_false_eq (h : Header) (cols : List Str) (hne : cols ≠ []) :
    Customize h cols false = cols.enum.map (resultCol h (bagOfFrom h 0 cols)) := by
  have hlen : ¬ (cols.length = 0) := by simpa using hne
  simp only [Customize, mapIndices_eq]
  rw [if_neg hlen]
  simp only [Bool.not_false, if_true]
  rw [show cols.enum = List.enumFrom 0 cols from rfl, customize_foldl]
  simp

lemma customize_false_length (h : Header) (cols : List Str) (hne : cols ≠ []) :
    (Customize h cols false).length = cols.length := by
  rw [customize_false_eq h cols hne, List.length_map,
    show cols.enum = List.enumFrom 0 cols from rfl, enumFrom_length]

lemma customize_true_eq (h : Header) (cols : List Str) (hne : cols ≠ []) :
    Customize h cols true = Customize h cols false ++ wideLeftovers h cols := by
  have hlen : ¬ (cols.length = 0) := by simpa using hne
  rw [customize_false_eq h cols hne]
  simp only [Customize, mapIndices_eq]
  rw [if_neg hlen]
  simp only [Bool.not_true]
  rw [show cols.enum = List.enumFrom 0 cols from rfl, customize_foldl]
  rw [if_neg (show ¬ (false = true) by simp)]
  simp only [List.nil_append]
  congr 1
  unfold wideLeftovers
  apply filterMap_ext
  intro p _
  by_cases hc : ∃ c ∈ cols, idxOf? h c true = some p.1
  · have hm : p.1 ∈ cols.filterMap (fun c => idxOf? h c true) :=
      List.mem_filterMap.mpr hc
    rw [if_pos hm, if_pos hc]
  · have hm : p.1 ∉ cols.filterMap (fun c => idxOf? h c true) :=
      fun hmem => hc (List.mem_filterMap.mp hmem)
    rw [if_neg hm, if_neg hc]

lemma wideLeftovers_length (h : Header) (cols : List Str) :
    (wideLeftovers h cols).length = unmatchedCount h cols := by
  unfold wideLeftovers unmatchedCount
  rw [filterMap_if_length (fun p : Nat × HeaderColumn => ∃ c ∈ cols, idxOf? h c true = some p.1)
    (fun p => setWide p.2.Clone true)]
  have hmap : List.range h.length = h.enum.map Prod.fst := (List.enum_map_fst h).symm
  rw [hmap, List.filter_map]
  rw [List.length_map]
  rfl

lemma headerDeepEqual_iff : ∀ (a b : Header),
    headerDeepEqual a b = true ↔
      (a.length = b.length ∧ ∀ (i : Nat) (x y : HeaderColumn),
        a.get? i = some x → b.get? i = some y → colDeepEqual x y = true) := by
  intro a
  induction a with
  | nil =>
    intro b
    cases b with
    | nil => simp [headerDeepEqual]
    | cons y tb => simp [headerDeepEqual]
  | cons x ta ih =>
    intro b
    cases b with
    | nil => simp [headerDeepEqual]
    | cons y tb =>
      simp only [headerDeepEqual, Bool.and_eq_true, ih]
      constructor
      · rintro ⟨hxy, hlen, hrec⟩
        refine ⟨by simpa using hlen, ?_⟩
        intro i u v hu hv
        cases i with
        | zero =>
          rw [show (x :: ta).get? 0 = some x from rfl] at hu
          rw [show (y :: tb).get? 0 = some y from rfl] at hv
          cases hu
          cases hv
          exact hxy
        | succ j => exact hrec j u v hu hv
      · rintro ⟨hlen, hall⟩
        refine ⟨hall 0 x y rfl rfl, by simpa using hlen, ?_⟩
        intro j u v hu hv
        exact hall (j + 1) u v hu hv

lemma getD_eq_of_get? {l : List HeaderColumn} {n : Nat} {c : HeaderColumn}
    (hg : l.get? n = some c) : l.getD n zeroColumn = c := by
  have hg2 : l[n]? = some c := by
    rw [← List.get?_eq_getElem?]
    exact hg
  simp [List.getD, hg2]

lemma customize_false_get? (h : Header) (cols : List Str) (hne : cols ≠ [])
    (i : Nat) (c : Str) (hc : cols.get? i = some c) :
    (Customize h cols false).get? i = some (specResultCol h (i, c)) := by
  rw [customize_false_eq h cols hne, List.get?_map,
    show cols.enum = List.enumFrom 0 cols from rfl, enumFrom_get?, hc]
  simp only [Option.map_some', Nat.zero_add]
  congr 1
  unfold resultCol specResultCol
  cases hx : idxOf? h c true with
  | some idx => simp [hx]
  | none =>
    simp only [hx]
    congr 1
    rw [bagGet_eq_bagFind?]
    have hb := bagFind?_bagOfFrom h cols 0 i
    rw [Nat.zero_add] at hb
    rw [hb, hc]
    cases hse : specBagEntry h c with
    | none => simp [hse, zeroInfo]
    | some e => simp [hse]

/-- Claim C6: `Customize` with an empty spec list returns the original
schema unchanged, for either value of `wide`. -/
theorem customize_empty_identity (h : Header) (wide : Bool) :
    Customize h [] wide = h := rfl

/-- Claim C9: `MapIndices` never consults its `wide` argument — the index
list and the extraction bag coincide for `wide = true` and
`wide = false`. -/
theorem mapIndices_wide_independent (h : Header) (cols : List Str) :
    MapIndices h cols true = MapIndices h cols false := rfl

/-- Claim C5: the index list `MapIndices` returns has exactly one entry
per spec, in input order (the entry at position `i` is
`IndexOf(specs[i], includeWide=true)`), and every entry is either a
valid column index of the schema or the sentinel `-1`. -/
theorem mapIndices_indices_spec (h : Header) (cols : List Str) (wide : Bool) :
    (MapIndices h cols wide).1.length = cols.length ∧
    (∀ i : Nat, (MapIndices h cols wide).1.get? i
      = (cols.get? i).map (fun c => (IndexOf h c true).1)) ∧
    ∀ x ∈ (MapIndices h cols wide).1,
      (0 ≤ x ∧ x < (h.length : Int)) ∨ x = -1 := by
  rw [mapIndices_eq]
  refine ⟨by simp, fun i => by simp [List.get?_map], ?_⟩
  intro x hx
  simp only [List.mem_map] at hx
  obtain ⟨c, _, rfl⟩ := hx
  cases hidx : idxOf? h c true with
  | none =>
    right
    unfold IndexOf
    rw [hidx]
  | some j =>
    left
    have hj := idxOf?_lt_length c true h j hidx
    have hio : (IndexOf h c true).1 = (j : Int) := by
      unfold IndexOf
      rw [hidx]
    rw [hio]
    constructor
    · exact Int.ofNat_nonneg j
    · exact_mod_cast hj

/-- Witness for `mapIndices_indices_spec`: on the one-column header `[A]`
with specs `["A", "B"]`, the resolved entry `0` is a valid index. -/
theorem mapIndices_indices_spec_witness :
    ((0 : Int) ≤ 0 ∧ (0 : Int) < (wHeaderA.length : Int)) ∨ (0 : Int) = -1 :=
  (mapIndices_indices_spec wHeaderA wColsAB true).2.2 0 (by decide)

/-- Claim C4: the extraction bag of `MapIndices` has an entry exactly for
the positions whose spec matches the grammar
`^(?:([^:]+):\s*)?(.*)\[(.*)\]$` with captured header name `"LABELS"`;
the entry is keyed by the spec's position and holds
`IndexOf("LABELS", includeWide=true)`, the whitespace-trimmed custom
name, the header name and the bracketed key (see `specBagEntry`). -/
theorem mapIndices_bag_spec (h : Header) (cols : List Str) (wide : Bool) (i : Nat) :
    bagFind? (MapIndices h cols wide).2 i = (cols.get? i).bind (specBagEntry h) := by
  rw [mapIndices_eq]
  have hb := bagFind?_bagOfFrom h cols 0 i
  simpa using hb

/-- Claim C3: for a non-empty spec list, `Customize(specs, false)` has
exactly one column per spec; a spec that resolves through `IndexOf`
(wide columns included) yields a clone of that column with `Wide`
forced false, and an unresolved spec yields a fresh zero-value column
carrying only the custom name the grammar captured for that request
(empty when none) — no role flags, no Decorator (see `specResultCol`
and `namedColumn`). -/
theorem customize_exact_spec (h : Header) (cols : List Str) (hne : cols ≠ []) :
    (Customize h cols false).length = cols.length ∧
    ∀ (i : Nat) (c : Str), cols.get? i = some c →
      (Customize h cols false).get? i = some (specResultCol h (i, c)) :=
  ⟨customize_false_length h cols hne,
   fun i c hc => customize_false_get? h cols hne i c hc⟩

/-- Witness for `customize_exact_spec` on header `[A]` with specs
`["A", "B"]`. -/
theorem customize_exact_spec_witness :
    (Customize wHeaderA wColsAB false).length = wColsAB.length ∧
    (Customize wHeaderA wColsAB false).get? 1
      = some (specResultCol wHeaderA (1, ['B'])) :=
  ⟨(customize_exact_spec wHeaderA wColsAB (by decide)).1,
   (customize_exact_spec wHeaderA wColsAB (by decide)).2 1 ['B'] (by decide)⟩

/-- Claim C2: for a non-empty spec list, `Customize(specs, true)` is the
`wide=false` result followed by every original column no spec resolved
to, cloned with `Wide` forced true, in original relative order; its
length is `len(specs)` plus the number of unmatched original columns. -/
theorem customize_wide_spec (h : Header) (cols : List Str) (hne : cols ≠ []) :
    (Customize h cols true).length = cols.length + unmatchedCount h cols ∧
    Customize h cols true = Customize h cols false ++ wideLeftovers h cols := by
  have heq := customize_true_eq h cols hne
  refine ⟨?_, heq⟩
  rw [heq, List.length_append, customize_false_length h cols hne, wideLeftovers_length]

/-- Witness for `customize_wide_spec` on header `[A, B]` with specs
`["B"]`. -/
theorem customize_wide_spec_witness :
    (Customize wHeaderAB wColsB true).length
      = wColsB.length + unmatchedCount wHeaderAB wColsB ∧
    Customize wHeaderAB wColsB true
      = Customize wHeaderAB wColsB false ++ wideLeftovers wHeaderAB wColsB :=
  customize_wide_spec wHeaderAB wColsB (by decide)

/-- Claim C10: with a non-empty spec list and `wide = true`, no original
column is lost: each column of the original schema appears in the
result at least once — as a clone with `Wide` forced false in the
requested prefix when some spec resolves to its index, or as a clone
with `Wide` forced true in the appended suffix otherwise. -/
theorem customize_wide_complete (h : Header) (cols : List Str) (hne : cols ≠ []) :
    ∀ col ∈ h, setWide col.Clone false ∈ Customize h cols true ∨
               setWide col.Clone true ∈ Customize h cols true := by
  intro col hcol
  obtain ⟨n, hn⟩ := List.mem_iff_get.mp hcol
  have hgi : h.get? n.1 = some col := by
    rw [List.get?_eq_get n.2]
    exact congrArg some hn
  rw [customize_true_eq h cols hne]
  by_cases hres : ∃ c ∈ cols, idxOf? h c true = some n.1
  · left
    apply List.mem_append_left
    obtain ⟨c, hcmem, hcidx⟩ := hres
    obtain ⟨m, hm⟩ := List.mem_iff_get.mp hcmem
    have hcget : cols.get? m.1 = some c := by
      rw [List.get?_eq_get m.2]
      exact congrArg some hm
    have hval := customize_false_get? h cols hne m.1 c hcget
    have hcle : specResultCol h (m.1, c) = setWide col.Clone false := by
      unfold specResultCol
      simp only [hcidx]
      rw [getD_eq_of_get? hgi]
    rw [← hcle]
    exact List.get?_mem hval
  · right
    apply List.mem_append_right
    unfold wideLeftovers
    apply List.mem_filterMap.mpr
    refine ⟨(n.1, col), ?_, ?_⟩
    · apply List.get?_mem (n := n.1)
      rw [show h.enum = List.enumFrom 0 h from rfl, enumFrom_get?, hgi]
      simp
    · dsimp only
      rw [if_neg hres]

/-- Witness for `customize_wide_complete` on header `[A, B]` with specs
`["B"]`, at the original column `A`. -/
theorem customize_wide_complete_witness :
    setWide (namedColumn ['A']).Clone false ∈ Customize wHeaderAB wColsB true ∨
    setWide (namedColumn ['A']).Clone true ∈ Customize wHeaderAB wColsB true :=
  customize_wide_complete wHeaderAB wColsB (by decide) (namedColumn ['A']) (by decide)

/-- Claim C8: the role queries are bounds-checked — a negative or
too-large index yields `false` rather than a failure, an in-range index
yields the corresponding flag of the column at that index — and
`HasAge` holds exactly when some column (wide or not) is named
`"AGE"`. -/
theorem role_queries_spec (h : Header) (i : Int) :
    ((i < 0 ∨ (h.length : Int) ≤ i) →
      IsMetricsCol h i = false ∧ IsTimeCol h i = false ∧ IsCapacityCol h i = false) ∧
    (∀ c : HeaderColumn, 0 ≤ i → i < (h.length : Int) → h.get? i.toNat = some c →
      IsMetricsCol h i = c.MX ∧ IsTimeCol h i = c.Time ∧ IsCapacityCol h i = c.Capacity) ∧
    (HasAge h = true ↔ ∃ c ∈ h, c.Name = ageCol) := by
  refine ⟨?_, ?_, ?_⟩
  · intro hout
    unfold IsMetricsCol IsTimeCol IsCapacityCol
    rw [if_pos hout, if_pos hout, if_pos hout]
    exact ⟨rfl, rfl, rfl⟩
  · intro c h0 hlt hget
    have hin : ¬ (i < 0 ∨ (h.length : Int) ≤ i) := by omega
    unfold IsMetricsCol IsTimeCol IsCapacityCol
    rw [if_neg hin, if_neg hin, if_neg hin, getD_eq_of_get? hget]
    exact ⟨rfl, rfl, rfl⟩
  · unfold HasAge IndexOf
    cases hidx : idxOf? h ageCol true with
    | some j =>
      constructor
      · intro _
        have hs : (idxOf? h ageCol true).isSome = true := by rw [hidx]; rfl
        exact (idxOf?_isSome_true_iff ageCol h).mp hs
      · intro _
        rfl
    | none =>
      constructor
      · intro hfalse
        exact absurd hfalse (by simp)
      · intro hex
        have hs := (idxOf?_isSome_true_iff ageCol h).mpr hex
        rw [hidx] at hs
        simp at hs

/-- Witness for `role_queries_spec` on the one-column header holding a
metrics `AGE` column: index `2` is out of range, index `0` reads the
flags, and the `AGE` column is found. -/
theorem role_queries_spec_witness :
    (IsMetricsCol wHeaderAge 2 = false ∧ IsTimeCol wHeaderAge 2 = false ∧
      IsCapacityCol wHeaderAge 2 = false) ∧
    (IsMetricsCol wHeaderAge 0 = true ∧ IsTimeCol wHeaderAge 0 = false ∧
      IsCapacityCol wHeaderAge 0 = false) ∧
    (∃ c ∈ wHeaderAge, c.Name = ageCol) :=
  ⟨(role_queries_spec wHeaderAge 2).1 (by decide),
   (role_queries_spec wHeaderAge 0).2.1 wAgeMetric (by decide) (by decide) (by decide),
   (role_queries_spec wHeaderAge 0).2.2.mp (by decide)⟩

/-- Claim C7: a spec that neither names an existing column nor is a
supported synthesis spec degrades softly: on any schema with no column
named `"UNKNOWN"`, `MapIndices(["UNKNOWN"], wide)` returns `([-1])`
with an empty bag, `Customize(["UNKNOWN"], false)` returns the
one-column schema `[{Name: ""}]`, and processing continues past such a
spec — `Customize("UNKNOWN" :: rest, false)` still yields one column
per spec, the first being `{Name: ""}`. -/
theorem unknown_spec_soft (h : Header) (w : Bool)
    (hno : idxOf? h unknownName true = none) :
    MapIndices h [unknownName] w = ([-1], []) ∧
    Customize h [unknownName] false = [namedColumn []] ∧
    ∀ rest : List Str,
      (Customize h (unknownName :: rest) false).length = rest.length + 1 ∧
      (Customize h (unknownName :: rest) false).get? 0 = some (namedColumn []) := by
  have hrgx : rgxMatch unknownName = none := by decide
  have hse : specBagEntry h unknownName = none := by
    unfold specBagEntry
    rw [hrgx]
  have hio : IndexOf h unknownName true = (-1, false) := by
    unfold IndexOf
    rw [hno]
  have hresult : specResultCol h (0, unknownName) = namedColumn [] := by
    unfold specResultCol
    simp only [hno, hse]
    rfl
  refine ⟨?_, ?_, ?_⟩
  · rw [mapIndices_eq]
    simp [bagOfFrom, hse, hio]
  · have hval := customize_false_get? h [unknownName] (by simp) 0 unknownName rfl
    have hlen := customize_false_length h [unknownName] (by simp)
    rw [hresult] at hval
    have h1 : (Customize h [unknownName] false).length = 1 := by simpa using hlen
    obtain ⟨a, ha⟩ := List.length_eq_one.mp h1
    rw [ha] at hval ⊢
    rw [show ([a] : Header).get? 0 = some a from rfl] at hval
    rw [(Option.some.injEq _ _).mp hval]
  · intro rest
    constructor
    · rw [customize_false_length h (unknownName :: rest) (by simp)]
      simp
    · have hval := customize_false_get? h (unknownName :: rest) (by simp) 0 unknownName rfl
      rw [hresult] at hval
      exact hval

/-- Witness for `unknown_spec_soft` on the one-column header `[NAME]`. -/
theorem unknown_spec_soft_witness :
    MapIndices wHeaderName [unknownName] false = ([-1], []) ∧
    Customize wHeaderName [unknownName] false = [namedColumn []] :=
  ⟨(unknown_spec_soft wHeaderName false (by decide)).1,
   (unknown_spec_soft wHeaderName false (by decide)).2.1⟩

/-- Claim C1, counterexample: two value-identical one-column headers whose
column carries the same non-nil Decorator handle.  The claim predicts
`Diff = false` for identical schemas (Decorator identity included), but
the code returns `true`: `reflect.DeepEqual` deems function values
deeply equal only when both are nil, so a shared non-nil handle still
compares unequal. -/
theorem diff_identical_counterexample :
    Diff [decoratedColumn] [decoratedColumn] = true := by decide

/-- Claim C1, amended: `Diff` returns `true` when lengths differ; when
lengths match it returns `false` iff every pair of columns at the same
position is deeply equal — all plain fields equal and *both* Decorator
handles nil (`colDeepEqual`).  In particular, schemas whose columns
carry non-nil Decorators always `Diff` as changed, even against an
identical value. -/
theorem diff_spec_amended (h k : Header) :
    Diff h k = false ↔
      (h.length = k.length ∧ ∀ (i : Nat) (x y : HeaderColumn),
        h.get? i = some x → k.get? i = some y → colDeepEqual x y = true) := by
  unfold Diff
  by_cases hlen : h.length = k.length
  · rw [if_neg (fun hn => hn hlen)]
    constructor
    · intro hfalse
      have hhd : headerDeepEqual h k = true := by
        cases hhd' : headerDeepEqual h k
        · rw [hhd'] at hfalse
          simp at hfalse
        · rfl
      exact (headerDeepEqual_iff h k).mp hhd
    · intro hr
      have hhd : headerDeepEqual h k = true := (headerDeepEqual_iff h k).mpr hr
      rw [hhd]
      rfl
  · rw [if_pos hlen]
    constructor
    · intro htrue
      exact absurd htrue (by simp)
    · rintro ⟨hl, _⟩
      exact absurd hl hlen

/-- Witness for `diff_spec_amended` at the empty pair of headers. -/
theorem diff_spec_amended_witness :
    Diff ([] : Header) ([] : Header) = false :=
  (diff_spec_amended [] []).mpr ⟨rfl, fun i x y hx _ => by simp at hx⟩

end Model1
